import Mathlib

/-!
Verification of the nf-subway pipeline visualizer core.

This file gives a shallow embedding of the data model and operations of
src/nf_subway/graph.py, src/nf_subway/grid.py, src/nf_subway/renderer.py and
src/nf_subway/monitor.py, and proves or refutes the frozen claims about them.

Modelling conventions:
- Python dicts (which preserve insertion order and are deterministic) are
  modelled as association lists with key lookup on the first occurrence;
  keys are unique in every reachable state.
- Python floats (durations) never flow through arithmetic on the verified
  paths, so they are modelled by an opaque carrier Int.
- Fallible code paths (Python exceptions) are modelled with Except.
-/

set_option maxHeartbeats 1000000

/-! ## Association-list dictionaries (model of Python dict) -/

section Dict

variable {K V : Type} [DecidableEq K]

/-- Lookup in an insertion-ordered dictionary (Python d[k] / d.get(k)). -/
def dget : List (K × V) → K → Option V
  | [], _ => none
  | p :: ps, k => if p.1 = k then some p.2 else dget ps k

/-- Assignment d[k] = v: update in place if the key is present, else append. -/
def dset : List (K × V) → K → V → List (K × V)
  | [], k, v => [(k, v)]
  | p :: ps, k, v => if p.1 = k then (k, v) :: ps else p :: dset ps k v

/-- Deletion del d[k] (first occurrence). -/
def ddel : List (K × V) → K → List (K × V)
  | [], _ => []
  | p :: ps, k => if p.1 = k then ps else p :: ddel ps k

end Dict

/-! ## Data model (src/nf_subway/colors.py and graph.py) -/

/-- ProcessStatus enumeration from colors.py. -/
inductive ProcessStatus
  | pending
  | running
  | completed
  | failed
  | cached
deriving DecidableEq, Repr

/-- ProcessNode dataclass from graph.py.  The Python field annotation is
spelled annot here (the original spelling is rejected by the toolchain),
and float-valued fields carry the opaque model type Int. -/
structure ProcessNode where
  name : String
  status : ProcessStatus
  task_id : Option String
  submit_time : Option Int
  complete_time : Option Int
  duration : Option Int
  children : List String
  parents : List String
  lane : Nat
  job_id : Option String
  progress : Option String
  annot : Option String
  branch_color : Option Int
deriving DecidableEq, Repr

/-- The dataclass constructor with its default fields: only name, status and
task_id are supplied at creation sites in graph.py. -/
def mkNode (name : String) (status : ProcessStatus) (task_id : Option String) :
    ProcessNode :=
  { name := name, status := status, task_id := task_id, submit_time := none,
    complete_time := none, duration := none, children := [], parents := [],
    lane := 0, job_id := none, progress := none, annot := none,
    branch_color := none }

/-- SubwayGraph state: nodes dict, arrival order, layout-stale flag
(lanes_assigned = false means stale). -/
structure SubwayGraph where
  nodes : List (String × ProcessNode)
  execution_order : List String
  lanes_assigned : Bool
deriving DecidableEq, Repr

def emptyStore : SubwayGraph :=
  { nodes := [], execution_order := [], lanes_assigned := false }

/-- SubwayGraph.add_process: create the node if absent (returning it), else
return the existing node unchanged. -/
def add_process (g : SubwayGraph) (name : String) (status : ProcessStatus)
    (task_id : Option String) : SubwayGraph × ProcessNode :=
  match dget g.nodes name with
  | none =>
    let node := mkNode name status task_id
    ({ nodes := dset g.nodes name node,
       execution_order := g.execution_order ++ [name],
       lanes_assigned := false }, node)
  | some n => (g, n)

/-- SubwayGraph.update_process.  The second component is the Python return
value: the source has no return statement, so it is always none. -/
def update_process (g : SubwayGraph) (name : String) (status : ProcessStatus)
    (duration : Option Int) ( annot : Option String) :
    SubwayGraph × Option ProcessNode :=
  match dget g.nodes name with
  | some n =>
    let n1 := { n with status := status }
    let n2 := match duration with
      | some d => { n1 with duration := some d }
      | none => n1
    let n3 := match annot with
      | some a => { n2 with annot := some a }
      | none => n2
    ({ g with nodes := dset g.nodes name n3 }, none)
  | none =>
    let res := add_process g name status none
    match annot with
    | some a =>
      ({ res.1 with nodes := dset res.1.nodes name { res.2 with annot := some a } },
       none)
    | none => (res.1, none)

/-- The existence guard of add_dependency: if name not in self.nodes, call
add_process(name) with the Pending default. -/
def ensureNode (g : SubwayGraph) (n : String) : SubwayGraph :=
  if (dget g.nodes n).isSome then g
  else (add_process g n ProcessStatus.pending none).1

/-- The first conditional append of add_dependency: child is appended to
parent_node.children unless already present.  The none fallback is dead
code: the caller ensured the parent exists. -/
def linkChildren (g : SubwayGraph) (parent child : String) : SubwayGraph :=
  match dget g.nodes parent with
  | some pn =>
    if child ∈ pn.children then g
    else { g with nodes := dset g.nodes parent
                    { pn with children := pn.children ++ [child] } }
  | none => g

/-- The second conditional append of add_dependency: parent is appended to
child_node.parents unless already present.  This re-reads the child node
after the first append, matching the Python aliasing when parent = child. -/
def linkParents (g : SubwayGraph) (parent child : String) : SubwayGraph :=
  match dget g.nodes child with
  | some cn =>
    if parent ∈ cn.parents then g
    else { g with nodes := dset g.nodes child
                    { cn with parents := cn.parents ++ [parent] } }
  | none => g

/-- SubwayGraph.add_dependency: ensure both nodes exist, append the child
and parent links unless present, mark layout stale. -/
def add_dependency (g : SubwayGraph) (parent child : String) : SubwayGraph :=
  let g1 := ensureNode g parent
  let g2 := ensureNode g1 child
  let g3 := linkChildren g2 parent child
  let g4 := linkParents g3 parent child
  { g4 with lanes_assigned := false }

/-- SubwayGraph.get_ordered_processes. -/
def get_ordered_processes (g : SubwayGraph) : List ProcessNode :=
  g.execution_order.filterMap (fun n => dget g.nodes n)

/-! ## Replayed event operations (the store mutation API used by claims) -/

/-- One store mutation: upsert is update_process, link is add_dependency. -/
inductive GraphOp
  | upsert (name : String) (status : ProcessStatus) (duration : Option Int)
      ( annot : Option String)
  | link (parent child : String)
deriving DecidableEq, Repr

def applyOp (g : SubwayGraph) : GraphOp → SubwayGraph
  | .upsert n st d a => (update_process g n st d a).1
  | .link p c => add_dependency g p c

/-- Replay an operation sequence against the empty store. -/
def replay (ops : List GraphOp) : SubwayGraph :=
  ops.foldl applyOp emptyStore

/-! ## Lane allocator (SubwayGraph.assign_lanes) -/

/-- In-pass allocator state: the nodes dict being relabelled, plus
active_lanes (lane to occupant name) and reserved_lanes (child name to
pre-claimed lane), as in graph.py lines 121-124. -/
structure LaneState where
  nodes : List (String × ProcessNode)
  active : List (Nat × String)
  reserved : List (String × Nat)
deriving DecidableEq, Repr

/-- The dict comprehension exec_positions = \x7bname: idx for idx, name in
enumerate(execution_order)\x7d (later duplicates overwrite earlier ones). -/
def execPositions (order : List String) : List (String × Nat) :=
  order.enum.foldl (fun m p => dset m p.2 p.1) []

/-- Python while lane in used: lane += 1, searching upward from cur.  The
fuel argument is always instantiated at one more than the number of used
lanes, so the search provably cannot exhaust it before finding a free lane. -/
def firstFreeAux : Nat → (Nat → Bool) → Nat → Nat
  | 0, _, cur => cur
  | fuel + 1, used, cur => if used cur then firstFreeAux fuel used (cur + 1) else cur

/-- Python min over a non-empty list of lane numbers. -/
def listMin : List Nat → Nat
  | [] => 0
  | x :: xs => xs.foldl Nat.min x

/-- Stable insertion used to model Python sorted (which is stable). -/
def insertLe {α : Type} (le : α → α → Bool) (x : α) : List α → List α
  | [] => [x]
  | y :: ys => if le x y then x :: y :: ys else y :: insertLe le x ys

/-- Stable sort (model of Python sorted with a key function). -/
def sortLe {α : Type} (le : α → α → Bool) (l : List α) : List α :=
  l.foldr (insertLe le) []

/-- Body of the lane-freeing loop at graph.py lines 171-185: for a parent
lane other than the lane just assigned, look up its occupant; if every child
of the occupant either is the current process or appears earlier in arrival
order, the lane is freed.  The truthiness test on the occupant name mirrors
Python (an empty string is falsy). -/
def laneFreeStep (pos : List (String × Nat)) (pname : String) (myLane : Nat)
    (st : LaneState) (p_lane : Nat) : LaneState :=
  if p_lane ≠ myLane then
    match dget st.active p_lane with
    | some parent_name =>
      if parent_name ≠ "" then
        match dget st.nodes parent_name with
        | some parent_node =>
          let myPos := (dget pos pname).getD 999999
          let is_last := parent_node.children.all
            (fun c => c = pname || Nat.blt ((dget pos c).getD 999999) myPos)
          if is_last ∧ (dget st.active p_lane).isSome then
            { st with active := ddel st.active p_lane }
          else st
        | none => st
      else st
    | none => st
  else st

/-- Body of the child-reservation loop at graph.py lines 194-204: for each
non-first child that exists, reserve the lowest lane not active and not
already reserved. -/
def laneReserveStep (st : LaneState) (c : String) : LaneState :=
  if (dget st.nodes c).isSome then
    let used := fun l => (dget st.active l).isSome || st.reserved.any (fun p => p.2 == l)
    let lane := firstFreeAux (st.active.length + st.reserved.length + 1) used 0
    { st with reserved := dset st.reserved c lane }
  else st

/-- One iteration of the forward pass of assign_lanes (graph.py 129-204)
for the process named pname.  A name missing from the nodes dict is skipped;
in Python that would raise KeyError, but it cannot occur since the loop
iterates over execution_order, whose names are always keys in reachable
stores. -/
def laneStep (pos : List (String × Nat)) (st : LaneState) (pname : String) :
    LaneState :=
  match dget st.nodes pname with
  | none => st
  | some node =>
    let st1 :=
      match dget st.reserved pname with
      | some rl =>
        { nodes := dset st.nodes pname { node with lane := rl },
          active := dset st.active rl pname,
          reserved := ddel st.reserved pname }
      | none =>
        let parent_lanes := node.parents.filterMap
          (fun p => (dget st.nodes p).map (fun q => q.lane))
        match parent_lanes with
        | [] =>
          if (dget st.active 0).isNone then
            { st with nodes := dset st.nodes pname { node with lane := 0 },
                      active := dset st.active 0 pname }
          else
            let lane := firstFreeAux (st.active.length + 1)
              (fun l => (dget st.active l).isSome) 0
            { st with nodes := dset st.nodes pname { node with lane := lane },
                      active := dset st.active lane pname }
        | [pl] =>
          { st with nodes := dset st.nodes pname { node with lane := pl },
                    active := dset st.active pl pname }
        | pl1 :: pl2 :: rest =>
          let m := listMin (pl1 :: pl2 :: rest)
          let st' := { st with
            nodes := dset st.nodes pname { node with lane := m },
            active := dset st.active m pname }
          (pl1 :: pl2 :: rest).foldl (laneFreeStep pos pname m) st'
    if node.children.length > 1 then
      let sorted_children := sortLe
        (fun a b => Nat.ble ((dget pos a).getD 999999) ((dget pos b).getD 999999))
        node.children
      (sorted_children.drop 1).foldl laneReserveStep st1
    else st1

/-- SubwayGraph.assign_lanes: early return when not stale; otherwise reset
every lane to 0 and run the single forward pass over arrival order. -/
def assign_lanes (g : SubwayGraph) : SubwayGraph :=
  if g.lanes_assigned then g
  else
    let nodes0 := g.nodes.map (fun p => (p.1, { p.2 with lane := 0 }))
    let pos := execPositions g.execution_order
    let stF := g.execution_order.foldl (laneStep pos)
      { nodes := nodes0, active := [], reserved := [] }
    { g with nodes := stF.nodes, lanes_assigned := true }

/-- The event sequence of the fan-out scenario in the spec (section 8). -/
def fanOutOps : List GraphOp :=
  [GraphOp.upsert "A" ProcessStatus.completed none none,
   GraphOp.link "A" "B",
   GraphOp.link "A" "C",
   GraphOp.upsert "B" ProcessStatus.running none none,
   GraphOp.upsert "C" ProcessStatus.pending none none]

/-- Events producing a merge node M that holds a lane reservation when it is
reached: A fans out to B and M (reserving lane 1 for M), and a later root Q
is also a parent of M. -/
def reservedMergeOps : List GraphOp :=
  [GraphOp.upsert "A" ProcessStatus.completed none none,
   GraphOp.link "A" "B",
   GraphOp.link "A" "M",
   GraphOp.upsert "Q" ProcessStatus.pending none none,
   GraphOp.link "Q" "M"]

/-! ## Character grid (src/nf_subway/grid.py) -/

/-- GridCell dataclass. -/
structure GridCell where
  char : String
  color : Option String
deriving DecidableEq, Repr

/-- CharacterSet: the box-drawing attributes the class actually defines. -/
structure CharacterSet where
  DOT : String
  DOT_SECONDARY : String
  SPACE : String
  VERTICAL : String
  HORIZONTAL : String
  CORNER_RD : String
  CORNER_RU : String
  CORNER_LD : String
  CORNER_LU : String
  SPLIT_RIGHT : String
  SPLIT_LEFT : String
  MERGE_DOWN : String
  MERGE_UP : String
  CROSS : String
deriving DecidableEq, Repr

/-- CharacterSet.thin(): the class defaults. -/
def CharacterSet.thin : CharacterSet :=
  { DOT := "●", DOT_SECONDARY := "○", SPACE := " ", VERTICAL := "│",
    HORIZONTAL := "─", CORNER_RD := "└", CORNER_RU := "┌", CORNER_LD := "┐",
    CORNER_LU := "┘", SPLIT_RIGHT := "├", SPLIT_LEFT := "┤",
    MERGE_DOWN := "┬", MERGE_UP := "┴", CROSS := "┼" }

/-- CharacterSet.round(): thin with the four corners overridden. -/
def CharacterSet.round : CharacterSet :=
  { CharacterSet.thin with
    CORNER_RD := "╰", CORNER_RU := "╭", CORNER_LD := "╮", CORNER_LU := "╯" }

/-- Python attribute lookup on a CharacterSet instance: the attributes that
exist are exactly the fields above; any other name (in particular
ARROW_RIGHT and ARROW_LEFT, which renderer.py reads) raises AttributeError,
modelled as none. -/
def CharacterSet.attrOf (c : CharacterSet) : String → Option String
  | "DOT" => some c.DOT
  | "DOT_SECONDARY" => some c.DOT_SECONDARY
  | "SPACE" => some c.SPACE
  | "VERTICAL" => some c.VERTICAL
  | "HORIZONTAL" => some c.HORIZONTAL
  | "CORNER_RD" => some c.CORNER_RD
  | "CORNER_RU" => some c.CORNER_RU
  | "CORNER_LD" => some c.CORNER_LD
  | "CORNER_LU" => some c.CORNER_LU
  | "SPLIT_RIGHT" => some c.SPLIT_RIGHT
  | "SPLIT_LEFT" => some c.SPLIT_LEFT
  | "MERGE_DOWN" => some c.MERGE_DOWN
  | "MERGE_UP" => some c.MERGE_UP
  | "CROSS" => some c.CROSS
  | _ => none

/-- Attribute access that raises AttributeError for unknown names. -/
def getAttr (c : CharacterSet) (a : String) : Except String String :=
  match c.attrOf a with
  | some s => Except.ok s
  | none => Except.error ("AttributeError: " ++ a)

def COLUMN_WIDTH : Int := 4

/-- GridRenderer state. -/
structure GridRenderer where
  num_columns : Int
  num_rows : Int
  width : Int
  chars : CharacterSet
  grid : List (List GridCell)
deriving DecidableEq, Repr

/-- Write the raw cell at row r, offset x (Python self.grid[r][x] = cell;
call sites always index in bounds). -/
def grid2set (rows : List (List GridCell)) (r x : Nat) (cell : GridCell) :
    List (List GridCell) :=
  match rows.get? r with
  | some rw => rows.set r (rw.set x cell)
  | none => rows

/-- Read the raw cell at row r, offset x. -/
def grid2get (rows : List (List GridCell)) (r x : Nat) : Option GridCell :=
  (rows.get? r).bind (fun rw => rw.get? x)

/-- GridRenderer.__init__ (chars defaults to thin). -/
def gridInit (num_columns num_rows : Int) (chars : Option CharacterSet) :
    GridRenderer :=
  { num_columns := num_columns, num_rows := num_rows,
    width := num_columns * COLUMN_WIDTH,
    chars := chars.getD CharacterSet.thin,
    grid := List.replicate num_rows.toNat
      (List.replicate (num_columns * COLUMN_WIDTH).toNat
        { char := " ", color := none }) }

/-- GridRenderer.set_char: silently ignores any out-of-bounds row or column
and otherwise overwrites the cell at (row, col * COLUMN_WIDTH). -/
def set_char (g : GridRenderer) (row col : Int) (char : String)
    (color : Option String) : GridRenderer :=
  if row < 0 ∨ row ≥ g.num_rows then g
  else if col < 0 ∨ col ≥ g.num_columns then g
  else
    let x := col * COLUMN_WIDTH
    { g with grid := grid2set g.grid row.toNat x.toNat (GridCell.mk char color) }

/-- GridRenderer.get_char: None for any out-of-bounds row or column. -/
def get_char (g : GridRenderer) (row col : Int) : Option GridCell :=
  if row < 0 ∨ row ≥ g.num_rows then none
  else if col < 0 ∨ col ≥ g.num_columns then none
  else grid2get g.grid row.toNat (col * COLUMN_WIDTH).toNat

/-- Python range(a, b) over integers. -/
def intRange (a b : Int) : List Int :=
  (List.range (b - a).toNat).map (fun i => a + i)

/-- GridRenderer.draw_vertical_line (rows strictly between start and end). -/
def draw_vertical_line (g : GridRenderer) (row_start row_end : Int) (col : Int)
    (color : Option String) : GridRenderer :=
  (intRange (row_start + 1) row_end).foldl
    (fun g r => set_char g r col g.chars.VERTICAL color) g

/-- GridRenderer.draw_horizontal_line: raw writes at cell offsets strictly
between the two column anchors, only over blank cells.  Call sites always
pass an in-bounds non-negative row. -/
def draw_horizontal_line (g : GridRenderer) (row : Int) (col_start col_end : Int)
    (color : Option String) : GridRenderer :=
  let x_start := col_start * COLUMN_WIDTH
  let x_end := col_end * COLUMN_WIDTH
  let p := if x_start > x_end then (x_end, x_start) else (x_start, x_end)
  (intRange (p.1 + 1) p.2).foldl
    (fun g x =>
      match grid2get g.grid row.toNat x.toNat with
      | some cell =>
        if cell.char = " " then
          let hcell := GridCell.mk g.chars.HORIZONTAL color
          { g with grid := grid2set g.grid row.toNat x.toNat hcell }
        else g
      | none => g) g

def listMinInt : List Int → Int
  | [] => 0
  | x :: xs => xs.foldl min x

def listMaxInt : List Int → Int
  | [] => 0
  | x :: xs => xs.foldl max x

/-- GridRenderer.draw_merge. -/
def draw_merge (g : GridRenderer) (row : Int) (from_cols : List Int)
    (to_col : Int) (color : Option String) : GridRenderer :=
  if from_cols = [] then g
  else
    let fc := sortLe (fun a b : Int => decide (a ≤ b)) from_cols
    if fc.length = 2 then
      let left_col := listMinInt fc
      let right_col := listMaxInt fc
      if to_col = left_col then
        let g := set_char g row left_col g.chars.SPLIT_RIGHT color
        let g := draw_horizontal_line g row left_col right_col color
        set_char g row right_col g.chars.CORNER_LU color
      else if to_col = right_col then
        let g := set_char g row left_col g.chars.CORNER_LD color
        let g := draw_horizontal_line g row left_col right_col color
        set_char g row right_col g.chars.SPLIT_LEFT color
      else
        let g := set_char g row to_col g.chars.MERGE_UP color
        fc.foldl (fun g col =>
          if col ≠ to_col then
            draw_horizontal_line g row (min col to_col) (max col to_col) color
          else g) g
    else
      let g := set_char g row to_col g.chars.MERGE_UP color
      fc.foldl (fun g col =>
        if col ≠ to_col then
          draw_horizontal_line g row (min col to_col) (max col to_col) color
        else g) g

/-- GridRenderer.draw_split. -/
def draw_split (g : GridRenderer) (row : Int) (from_col : Int)
    (to_cols : List Int) (color : Option String) : GridRenderer :=
  if to_cols = [] then g
  else
    let tc := sortLe (fun a b : Int => decide (a ≤ b)) to_cols
    if tc.length = 2 then
      let left_col := listMinInt tc
      let right_col := listMaxInt tc
      if from_col = left_col then
        let g := set_char g row left_col g.chars.SPLIT_RIGHT color
        let g := draw_horizontal_line g row left_col right_col color
        set_char g row right_col g.chars.CORNER_RU color
      else if from_col = right_col then
        let g := set_char g row left_col g.chars.CORNER_RD color
        let g := draw_horizontal_line g row left_col right_col color
        set_char g row right_col g.chars.SPLIT_LEFT color
      else
        let g := set_char g row from_col g.chars.MERGE_DOWN color
        tc.foldl (fun g col =>
          if col ≠ from_col then
            draw_horizontal_line g row (min col from_col) (max col from_col) color
          else g) g
    else
      let g := set_char g row from_col g.chars.MERGE_DOWN color
      tc.foldl (fun g col =>
        if col ≠ from_col then
          draw_horizontal_line g row (min col from_col) (max col from_col) color
        else g) g

/-! ## Vertical renderer (src/nf_subway/renderer.py, colors.py) -/

/-- GitGraphColors.BRANCH_PALETTE. -/
def BRANCH_PALETTE : List String :=
  ["bright_blue", "bright_yellow", "bright_magenta", "bright_green",
   "bright_cyan", "bright_red", "bright_white", "cyan", "magenta", "yellow"]

/-- GitGraphColors.branch_color. -/
def branchColor (lane : Nat) : String :=
  (BRANCH_PALETTE.get? (lane % BRANCH_PALETTE.length)).getD ""

/-- BlinkEffect.get_running_style, indexed by should_show_bright. -/
def blinkStyle (bright : Bool) : String :=
  if bright then "bright_blue bold" else "blue dim"

/-- SubwayRenderer._lane_color. -/
def laneColor (node : ProcessNode) : String :=
  if node.status = ProcessStatus.failed then "bright_red"
  else branchColor node.lane

/-- One iteration of the drawing loop of _render_vertical_grid
(renderer.py 88-158) for the node at index ip.1: the status dot, the
connector row up to the parents, and the connector row down to a single
same-lane child.  Every access chars.X of the renderer-local round
CharacterSet goes through getAttr; the names ARROW_RIGHT and ARROW_LEFT in
the single-parent lane-change branch are not attributes of the class. -/
def renderNodeStep (graphNodes : List (String × ProcessNode))
    (chars_r : CharacterSet) (blinkBright : Bool) (total : Nat)
    (grid : GridRenderer) (ip : Nat × ProcessNode) :
    Except String GridRenderer := do
  let idx := ip.1
  let node := ip.2
  let row : Int := (idx : Int) * 2
  let dc0 := laneColor node
  let (dot_char, dot_color) ←
    if node.status = ProcessStatus.completed then do
      let d ← getAttr chars_r "DOT"
      pure (d, dc0)
    else if node.status = ProcessStatus.failed then
      pure ("X", "bright_red")
    else if node.status = ProcessStatus.running then do
      let d ← getAttr chars_r "DOT"
      pure (d, blinkStyle blinkBright)
    else if node.status = ProcessStatus.cached then do
      let d ← getAttr chars_r "DOT_SECONDARY"
      pure (d, dc0)
    else do
      let d ← getAttr chars_r "DOT_SECONDARY"
      pure (d, "dim white")
  let grid := set_char grid row (node.lane : Int) dot_char (some dot_color)
  let parent_lanes := node.parents.filterMap
    (fun p => (dget graphNodes p).map (fun q => q.lane))
  let child_lanes := node.children.filterMap
    (fun c => (dget graphNodes c).map (fun q => q.lane))
  let grid ←
    if idx > 0 then
      let crow := row - 1
      if parent_lanes.length > 1 then
        pure (draw_merge grid crow (parent_lanes.map (fun l => (l : Int)))
          (node.lane : Int) (some dot_color))
      else
        match parent_lanes with
        | [pl] =>
          if pl = node.lane then do
            let v ← getAttr chars_r "VERTICAL"
            pure (set_char grid crow (node.lane : Int) v (some dot_color))
          else if pl < node.lane then do
            let cld ← getAttr chars_r "CORNER_LD"
            let grid := set_char grid crow (pl : Int) cld (some dot_color)
            let grid := draw_horizontal_line grid crow (pl : Int)
              (node.lane : Int) (some dot_color)
            let ar ← getAttr chars_r "ARROW_RIGHT"
            pure (set_char grid crow (node.lane : Int) ar (some dot_color))
          else do
            let al ← getAttr chars_r "ARROW_LEFT"
            let grid := set_char grid crow (node.lane : Int) al (some dot_color)
            let grid := draw_horizontal_line grid crow (node.lane : Int)
              (pl : Int) (some dot_color)
            let clu ← getAttr chars_r "CORNER_LU"
            pure (set_char grid crow (pl : Int) clu (some dot_color))
        | _ => pure grid
    else pure grid
  if idx < total - 1 then
    let crow := row + 1
    if child_lanes.length > 1 then
      pure (draw_split grid crow (node.lane : Int)
        (child_lanes.map (fun l => (l : Int))) (some dot_color))
    else
      match child_lanes with
      | [cl] =>
        if cl = node.lane then do
          let v ← getAttr chars_r "VERTICAL"
          pure (set_char grid crow (node.lane : Int) v (some dot_color))
        else pure grid
      | _ => pure grid
  else pure grid

/-- SubwayRenderer._render_vertical_grid up to and including the continuous
lane-stroke pass (renderer.py 60-168); the subsequent Rich text assembly
only reads the finished grid.  The blink frame is abstracted by the
blinkBright flag. -/
def renderVerticalGrid (graphNodes : List (String × ProcessNode))
    (processes : List ProcessNode) (max_lane : Nat) (blinkBright : Bool) :
    Except String GridRenderer :=
  let num_rows : Int := (processes.length : Int) * 2 - 1
  let num_cols : Int := (max_lane : Int) + 1
  let grid0 := gridInit num_cols num_rows none
  let chars_r := CharacterSet.round
  let lane_rows := processes.enum.foldl
    (fun m ip => dset m ip.2.lane ((dget m ip.2.lane).getD [] ++ [ip.1 * 2]))
    ([] : List (Nat × List Nat))
  do
    let grid ← processes.enum.foldlM
      (renderNodeStep graphNodes chars_r blinkBright processes.length) grid0
    pure (lane_rows.foldl (fun grid lr =>
      let ordered := sortLe (fun a b : Nat => Nat.ble a b) lr.2.eraseDups
      if ordered.length < 2 then grid
      else (ordered.zip (ordered.drop 1)).foldl (fun grid rr =>
        draw_vertical_line grid (rr.1 : Int) (rr.2 : Int) (lr.1 : Int)
          (some (branchColor lr.1))) grid) grid)

/-- Python max(lanes, default=0) over the ordered process list. -/
def maxLane (ps : List ProcessNode) : Nat :=
  ps.foldl (fun m n => Nat.max m n.lane) 0

/-! ## Workflow completion (src/nf_subway/monitor.py) -/

/-- One iteration of NextflowMonitor._mark_workflow_complete: promote a
running or pending snapshot node to Completed via update_process. -/
def markStep (g : SubwayGraph) (p : ProcessNode) : SubwayGraph :=
  if p.status = ProcessStatus.running ∨ p.status = ProcessStatus.pending then
    (update_process g p.name ProcessStatus.completed none none).1
  else g

/-- NextflowMonitor._mark_workflow_complete: iterate over the snapshot list
get_ordered_processes and promote every Running/Pending node.  Folding with
the snapshot statuses is faithful to the Python aliasing: each name occurs
once in the snapshot, and updating one node never changes the status of
any other node, so each snapshot status equals the live status when it is
visited. -/
def mark_workflow_complete (g : SubwayGraph) : SubwayGraph :=
  (get_ordered_processes g).foldl markStep g

/-- A cyclic dependency: A and B are each the parent of the other. -/
def cyclicOps : List GraphOp :=
  [GraphOp.link "A" "B", GraphOp.link "B" "A"]

/-- The fan-out store after its layout pass. -/
def fanOutStore : SubwayGraph := assign_lanes (replay fanOutOps)

/-- The vertical grid render of the fan-out store, as render_to_lines
performs it (bright blink phase). -/
def fanOutRender : Except String GridRenderer :=
  renderVerticalGrid fanOutStore.nodes (get_ordered_processes fanOutStore)
    (maxLane (get_ordered_processes fanOutStore)) true

/-- The reserved-merge store, its positions map, and the allocator state
after the pass has handled A and B (the state in which M is reached). -/
def rmStore : SubwayGraph := replay reservedMergeOps

def rmPos : List (String × Nat) := execPositions rmStore.execution_order

def rmSt0 : LaneState :=
  { nodes := rmStore.nodes.map (fun p => (p.1, { p.2 with lane := 0 })),
    active := [], reserved := [] }

def rmSt2 : LaneState := ["A", "B"].foldl (laneStep rmPos) rmSt0

/-- A hand-built allocator state with a two-parent node M whose parents P
and Q already sit on lanes 1 and 2, used to witness the merge-minimum rule. -/
def mergeWitnessSt : LaneState :=
  { nodes :=
      [("P", { (mkNode "P" ProcessStatus.completed none) with lane := 1 }),
       ("Q", { (mkNode "Q" ProcessStatus.completed none) with lane := 2 }),
       ("M", { (mkNode "M" ProcessStatus.pending none) with parents := ["P", "Q"] })],
    active := [], reserved := [] }

/-! ## Dictionary lemmas -/

section DictLemmas

variable {K V : Type} [DecidableEq K]

theorem dget_dset (m : List (K × V)) (k j : K) (v : V) :
    dget (dset m k v) j = if j = k then some v else dget m j := by
  induction m with
  | nil => by_cases h : j = k <;> simp [dset, dget, h, Ne.symm]
  | cons p ps ih =>
    by_cases h1 : p.1 = k
    · by_cases h2 : j = k
      · simp [dset, dget, h1, h2]
      · have hkj : k ≠ j := fun h => h2 h.symm
        simp [dset, dget, h1, h2, hkj]
    · by_cases h2 : j = k
      · subst h2; simp [dset, dget, h1, ih, Ne.symm h1]
      · by_cases h3 : p.1 = j <;> simp [dset, dget, h1, h2, h3, ih]

theorem dget_dset_self (m : List (K × V)) (k : K) (v : V) :
    dget (dset m k v) k = some v := by simp [dget_dset]

theorem dget_dset_ne (m : List (K × V)) (k j : K) (v : V) (h : j ≠ k) :
    dget (dset m k v) j = dget m j := by simp [dget_dset, h]

theorem dget_isSome_dset (m : List (K × V)) (k j : K) (v : V)
    (h : (dget m j).isSome) : (dget (dset m k v) j).isSome := by
  by_cases hjk : j = k
  · subst hjk; simp [dget_dset_self]
  · rwa [dget_dset_ne m k j v hjk]

end DictLemmas

/-! ## Lane-pass helper lemmas -/

theorem laneFreeStep_nodes (pos : List (String × Nat)) (pname : String)
    (myLane : Nat) (st : LaneState) (pl : Nat) :
    (laneFreeStep pos pname myLane st pl).nodes = st.nodes := by
  unfold laneFreeStep
  repeat' split
  all_goals try rfl
  all_goals (dsimp only; split <;> rfl)

theorem foldl_laneFreeStep_nodes (pos : List (String × Nat)) (pname : String)
    (myLane : Nat) (ls : List Nat) (st : LaneState) :
    (ls.foldl (laneFreeStep pos pname myLane) st).nodes = st.nodes := by
  induction ls generalizing st with
  | nil => rfl
  | cons x xs ih => rw [List.foldl_cons, ih, laneFreeStep_nodes]

theorem laneReserveStep_nodes (st : LaneState) (c : String) :
    (laneReserveStep st c).nodes = st.nodes := by
  unfold laneReserveStep
  split <;> rfl

theorem foldl_laneReserveStep_nodes (cs : List String) (st : LaneState) :
    (cs.foldl laneReserveStep st).nodes = st.nodes := by
  induction cs generalizing st with
  | nil => rfl
  | cons x xs ih => rw [List.foldl_cons, ih, laneReserveStep_nodes]

/-! ## Claim C4 -/

/-- C4: replaying upsert(A,Completed); link(A,B); link(A,C);
upsert(B,Running); upsert(C,Pending) against the empty store and running a
layout pass assigns A lane 0, B (the earliest-arriving child) lane 0 and
C lane 1. -/
theorem C4_fan_out_scenario_lanes :
    ((dget (assign_lanes (replay fanOutOps)).nodes "A").map (fun n => n.lane) = some 0) ∧
    ((dget (assign_lanes (replay fanOutOps)).nodes "B").map (fun n => n.lane) = some 0) ∧
    ((dget (assign_lanes (replay fanOutOps)).nodes "C").map (fun n => n.lane) = some 1) := by
  decide

/-! ## Claim C2 -/

/-- C2: on the fan-out store, node C has exactly one parent (A, lane 0)
while C sits on lane 1, and the vertical grid renderer does not complete:
after drawing the corner at the old lane and the bridging horizontal line it
evaluates chars.ARROW_RIGHT, an attribute CharacterSet never defines, so the
render raises AttributeError instead of drawing a corner glyph at the new
lane (the symmetric branch reads chars.ARROW_LEFT first and raises before
drawing anything). -/
theorem C2_single_parent_lane_change_raises :
    ((dget fanOutStore.nodes "C").map (fun n => n.parents) = some ["A"]) ∧
    ((dget fanOutStore.nodes "C").map (fun n => n.lane) = some 1) ∧
    ((dget fanOutStore.nodes "A").map (fun n => n.lane) = some 0) ∧
    fanOutRender = Except.error "AttributeError: ARROW_RIGHT" :=
  ⟨by decide, by decide, by decide, by rfl⟩

/-! ## Claim C9 -/

/-- C9: the layout pass terminates on every store state: assign_lanes is a
total structural fold over arrival order (no recursion, only direct parent
lookups inside laneStep) and always leaves the lanes_assigned flag true; in
particular it computes lanes on a store whose parent/child relation is the
two-cycle between A and B. -/
theorem C9_terminates_on_all_stores :
    (∀ g : SubwayGraph, (assign_lanes g).lanes_assigned = true) ∧
    ((dget (assign_lanes (replay cyclicOps)).nodes "A").map (fun n => n.lane) = some 0) ∧
    ((dget (assign_lanes (replay cyclicOps)).nodes "B").map (fun n => n.lane) = some 0) := by
  refine ⟨fun g => ?_, by decide, by decide⟩
  unfold assign_lanes
  by_cases h : g.lanes_assigned <;> simp [h]

/-! ## Claim C5 -/

/-- C5: lane assignment is a deterministic function of the replayed
operation sequence: two stores built by the same sequence get identical
lane numbers for every node.  The embedding models Python dicts as
insertion-ordered maps, which is faithful because the allocator only ever
iterates over execution_order and uses its dicts and sets through key
membership, never through iteration order. -/
theorem C5_lane_determinism (ops : List GraphOp) (g1 g2 : SubwayGraph)
    (h1 : g1 = replay ops) (h2 : g2 = replay ops) (name : String) :
    (dget (assign_lanes g1).nodes name).map (fun n => n.lane)
      = (dget (assign_lanes g2).nodes name).map (fun n => n.lane) := by
  subst h1; subst h2; rfl

theorem C5_lane_determinism_witness :
    (dget (assign_lanes (replay fanOutOps)).nodes "C").map (fun n => n.lane)
      = (dget (assign_lanes (replay fanOutOps)).nodes "C").map (fun n => n.lane) :=
  C5_lane_determinism fanOutOps (replay fanOutOps) (replay fanOutOps) rfl rfl "C"

/-! ## Claim C10 -/

/-- C10: for any out-of-bounds row or column (negative or past the bounds),
set_char is a silent no-op and get_char returns none; both are total
functions of arbitrary integer indices. -/
theorem C10_out_of_bounds_set_get (g : GridRenderer) (row col : Int)
    (ch : String) (color : Option String)
    (h : row < 0 ∨ row ≥ g.num_rows ∨ col < 0 ∨ col ≥ g.num_columns) :
    set_char g row col ch color = g ∧ get_char g row col = none := by
  have hsplit : (row < 0 ∨ row ≥ g.num_rows) ∨ (col < 0 ∨ col ≥ g.num_columns) := by
    tauto
  rcases hsplit with h1 | h1
  · constructor
    · unfold set_char; rw [if_pos h1]
    · unfold get_char; rw [if_pos h1]
  · by_cases h2 : row < 0 ∨ row ≥ g.num_rows
    · constructor
      · unfold set_char; rw [if_pos h2]
      · unfold get_char; rw [if_pos h2]
    · constructor
      · unfold set_char; rw [if_neg h2, if_pos h1]
      · unfold get_char; rw [if_neg h2, if_pos h1]

theorem C10_out_of_bounds_witness :
    set_char (gridInit 3 5 none) (-1) 7 "●" none = gridInit 3 5 none ∧
    get_char (gridInit 3 5 none) (-1) 7 = none :=
  C10_out_of_bounds_set_get (gridInit 3 5 none) (-1) 7 "●" none
    (Or.inl (by decide))

/-! ## Claim C7 -/

/-- C7: updating a name that already exists in the store never touches the
layout: on a store whose layout-stale flag is false (lanes_assigned = true,
the state in which the early return of assign_lanes fires), a call to
update_process keeps the layout-stale flag false (lanes_assigned stays
true), leaves the arrival order unchanged, and leaves the lane of every
node unchanged. -/
theorem C7_status_update_keeps_layout (g : SubwayGraph) (name : String)
    (st : ProcessStatus) (dur : Option Int) (a : Option String)
    (hpres : (dget g.nodes name).isSome = true)
    (hflag : g.lanes_assigned = true) :
    ((update_process g name st dur a).1.lanes_assigned = true) ∧
    ((update_process g name st dur a).1.execution_order = g.execution_order) ∧
    (∀ m, (dget (update_process g name st dur a).1.nodes m).map (fun n => n.lane)
        = (dget g.nodes m).map (fun n => n.lane)) := by
  obtain ⟨old, hold⟩ := Option.isSome_iff_exists.mp hpres
  rcases dur with _ | d <;> rcases a with _ | an <;>
    simp only [update_process, hold] <;>
    refine ⟨hflag, trivial, fun m => ?_⟩ <;>
    by_cases hm : m = name <;>
    simp [dget_dset, hm, hold]

theorem C7_status_update_witness :
    ((update_process
        (assign_lanes (replay [GraphOp.upsert "A" ProcessStatus.running none none]))
        "A" ProcessStatus.completed none none).1.lanes_assigned = true) :=
  (C7_status_update_keeps_layout
    (assign_lanes (replay [GraphOp.upsert "A" ProcessStatus.running none none]))
    "A" ProcessStatus.completed none none (by decide) (by decide)).1

/-! ## Claim C1 -/

/-- C1 counterexample: in the reserved-merge store, M has two parents (A
and Q); when the forward pass reaches M (after processing A and B) both
parents still hold lane 0, so the minimum of the parent lanes is 0, yet M
is assigned its reserved lane 1 — both in the isolated step and in the full
layout pass.  This refutes the claim that every merge node, including one
holding a reservation, gets the minimum of its parent lanes. -/
theorem C1_reserved_merge_counterexample :
    ((dget rmStore.nodes "M").map (fun n => n.parents) = some ["A", "Q"]) ∧
    ((dget rmSt2.nodes "A").map (fun n => n.lane) = some 0) ∧
    ((dget rmSt2.nodes "Q").map (fun n => n.lane) = some 0) ∧
    (listMin [0, 0] = 0) ∧
    ((dget (laneStep rmPos rmSt2 "M").nodes "M").map (fun n => n.lane) = some 1) ∧
    ((dget (assign_lanes rmStore).nodes "M").map (fun n => n.lane) = some 1) := by
  decide

/-- C1 (amended): in the forward pass, a node holding a lane reservation is
assigned its reserved lane (not the minimum parent lane); a node with two or
more parent lanes and no reservation is assigned the minimum of its
parent lanes at the moment it is processed. -/
theorem C1_merge_lane_rule (pos : List (String × Nat)) (st : LaneState)
    (pname : String) (node : ProcessNode)
    (hnode : dget st.nodes pname = some node) :
    (∀ rl, dget st.reserved pname = some rl →
      (dget (laneStep pos st pname).nodes pname).map (fun n => n.lane) = some rl) ∧
    (dget st.reserved pname = none →
      ∀ pl1 pl2 rest,
        node.parents.filterMap (fun p => (dget st.nodes p).map (fun q => q.lane))
          = pl1 :: pl2 :: rest →
        (dget (laneStep pos st pname).nodes pname).map (fun n => n.lane)
          = some (listMin (pl1 :: pl2 :: rest))) := by
  constructor
  · intro rl hrl
    simp only [laneStep, hnode, hrl]
    split
    · rw [foldl_laneReserveStep_nodes]
      simp [dget_dset_self]
    · simp [dget_dset_self]
  · intro hres pl1 pl2 rest hpar
    simp only [laneStep, hnode, hres, hpar]
    split
    · rw [foldl_laneReserveStep_nodes, foldl_laneFreeStep_nodes]
      simp [dget_dset_self]
    · rw [foldl_laneFreeStep_nodes]
      simp [dget_dset_self]

/-- Witness for both halves of the amended C1 rule: M in the reserved-merge
pass receives its reserved lane 1, and M in the hand-built two-parent state
receives the minimum parent lane min(1,2) = 1. -/
theorem C1_merge_lane_rule_witness :
    ((dget (laneStep rmPos rmSt2 "M").nodes "M").map (fun n => n.lane) = some 1) ∧
    ((dget (laneStep [] mergeWitnessSt "M").nodes "M").map (fun n => n.lane)
        = some (listMin [1, 2])) := by
  constructor
  · exact (C1_merge_lane_rule rmPos rmSt2 "M"
      { (mkNode "M" ProcessStatus.pending none) with parents := ["A", "Q"] }
      (by decide)).1 1 (by decide)
  · exact (C1_merge_lane_rule [] mergeWitnessSt "M"
      { (mkNode "M" ProcessStatus.pending none) with parents := ["P", "Q"] }
      (by decide)).2 (by decide) 1 2 [] (by decide)

/-! ## Claim C3 -/

/-- C3 counterexample: upserting an unseen name with a provided duration
creates the node but discards the duration (it is none, not the provided
value), and the call returns None rather than the node. -/
theorem C3_upsert_counterexample :
    ((update_process emptyStore "A" ProcessStatus.running (some 5) none).2 = none) ∧
    ((dget (update_process emptyStore "A" ProcessStatus.running (some 5) none).1.nodes
        "A").map (fun n => n.duration) = some none) := by
  decide

/-- C3 (amended): upsert creates an absent node with the given status and
the provided annotation, but a provided duration is discarded at creation;
on a present node it overwrites status and merges duration/annotation
non-destructively; the call always returns None; and it marks the layout
stale (and extends arrival order) only when the node is newly created. -/
theorem C3_upsert_behaviour (g : SubwayGraph) (name : String)
    (st : ProcessStatus) (dur : Option Int) (a : Option String) :
    ((update_process g name st dur a).2 = none) ∧
    (∀ old, dget g.nodes name = some old →
      dget (update_process g name st dur a).1.nodes name
          = some { old with
              status := st
              duration := if dur.isSome then dur else old.duration
              annot := if a.isSome then a else old.annot } ∧
      (update_process g name st dur a).1.execution_order = g.execution_order ∧
      (update_process g name st dur a).1.lanes_assigned = g.lanes_assigned ∧
      (∀ m, m ≠ name →
        dget (update_process g name st dur a).1.nodes m = dget g.nodes m)) ∧
    (dget g.nodes name = none →
      dget (update_process g name st dur a).1.nodes name
          = some { (mkNode name st none) with annot := a } ∧
      (update_process g name st dur a).1.execution_order
          = g.execution_order ++ [name] ∧
      (update_process g name st dur a).1.lanes_assigned = false ∧
      (∀ m, m ≠ name →
        dget (update_process g name st dur a).1.nodes m = dget g.nodes m)) := by
  refine ⟨?_, ?_, ?_⟩
  · rcases dur with _ | d <;> rcases a with _ | an <;>
      cases h : dget g.nodes name <;>
      simp [update_process, add_process, h]
  · intro old hold
    rcases dur with _ | d <;> rcases a with _ | an <;>
      simp only [update_process, hold] <;>
      exact ⟨by simp [dget_dset_self], by trivial, by trivial,
        fun m hm => dget_dset_ne g.nodes name m _ hm⟩
  · intro habs
    rcases dur with _ | d <;> rcases a with _ | an <;>
      simp only [update_process, add_process, habs] <;>
      refine ⟨by simp [dget_dset, dget_dset_self, mkNode], by trivial, by trivial,
        fun m hm => ?_⟩ <;>
      simp [dget_dset_ne _ name m _ hm]

/-- Witness instantiating the amended upsert description at a concrete
call: creating A with status Running and duration 5 on the empty store. -/
theorem C3_upsert_behaviour_witness :
    dget (update_process emptyStore "A" ProcessStatus.running (some 5) none).1.nodes
        "A" = some { (mkNode "A" ProcessStatus.running none) with annot := none } :=
  ((C3_upsert_behaviour emptyStore "A" ProcessStatus.running (some 5) none).2.2
    (by decide)).1

/-! ## Store invariants for reachable states -/

/-- Invariants maintained by every reachable store state: node values carry
their own key as name, every key is in arrival order, every listed child or
parent link points at an existing node, and parent/child links are
symmetric. -/
structure StoreInv (g : SubwayGraph) : Prop where
  name_eq : ∀ k n, dget g.nodes k = some n → n.name = k
  in_order : ∀ k n, dget g.nodes k = some n → k ∈ g.execution_order
  closed_children : ∀ k n, dget g.nodes k = some n →
    ∀ c ∈ n.children, (dget g.nodes c).isSome = true
  closed_parents : ∀ k n, dget g.nodes k = some n →
    ∀ p ∈ n.parents, (dget g.nodes p).isSome = true
  sym : ∀ a na b nb, dget g.nodes a = some na → dget g.nodes b = some nb →
    (b ∈ na.children ↔ a ∈ nb.parents)

theorem dget_add_process (g : SubwayGraph) (n : String) (st : ProcessStatus)
    (t : Option String) (m : String) :
    dget (add_process g n st t).1.nodes m =
      match dget g.nodes n with
      | some _ => dget g.nodes m
      | none => if m = n then some (mkNode n st t) else dget g.nodes m := by
  unfold add_process
  cases h : dget g.nodes n <;> simp [h, dget_dset]

theorem add_process_order (g : SubwayGraph) (n : String) (st : ProcessStatus)
    (t : Option String) :
    (add_process g n st t).1.execution_order =
      match dget g.nodes n with
      | some _ => g.execution_order
      | none => g.execution_order ++ [n] := by
  unfold add_process
  cases h : dget g.nodes n <;> simp [h]

theorem add_process_snd (g : SubwayGraph) (n : String) (st : ProcessStatus)
    (t : Option String) (h : dget g.nodes n = none) :
    (add_process g n st t).2 = mkNode n st t := by
  unfold add_process
  rw [h]

theorem storeInv_add_process (g : SubwayGraph) (n : String) (st : ProcessStatus)
    (t : Option String) (hInv : StoreInv g) : StoreInv (add_process g n st t).1 := by
  cases h : dget g.nodes n with
  | some old =>
    have heq : (add_process g n st t).1 = g := by unfold add_process; rw [h]
    rw [heq]; exact hInv
  | none =>
    constructor
    · intro k nd hk
      rw [dget_add_process, h] at hk
      by_cases hkn : k = n
      · simp [hkn] at hk
        rw [← hk]
        simp [mkNode, hkn]
      · simp [hkn] at hk
        exact hInv.name_eq k nd hk
    · intro k nd hk
      rw [dget_add_process, h] at hk
      rw [add_process_order, h]
      by_cases hkn : k = n
      · subst hkn
        exact List.mem_append_right _ (by simp)
      · simp [hkn] at hk
        exact List.mem_append_left _ (hInv.in_order k nd hk)
    · intro k nd hk c hc
      rw [dget_add_process, h] at hk
      rw [dget_add_process, h]
      by_cases hkn : k = n
      · simp [hkn] at hk
        rw [← hk] at hc
        simp [mkNode] at hc
      · simp [hkn] at hk
        have hpres := hInv.closed_children k nd hk c hc
        by_cases hcn : c = n
        · simp [hcn]
        · simp [hcn]
          exact hpres
    · intro k nd hk p hp
      rw [dget_add_process, h] at hk
      rw [dget_add_process, h]
      by_cases hkn : k = n
      · simp [hkn] at hk
        rw [← hk] at hp
        simp [mkNode] at hp
      · simp [hkn] at hk
        have hpres := hInv.closed_parents k nd hk p hp
        by_cases hpn : p = n
        · simp [hpn]
        · simp [hpn]
          exact hpres
    · intro a na b nb ha hb
      rw [dget_add_process, h] at ha hb
      by_cases han : a = n <;> by_cases hbn : b = n
      · simp [han] at ha
        simp [hbn] at hb
        rw [← ha, ← hb]
        simp [mkNode]
      · simp [han] at ha
        simp [hbn] at hb
        rw [← ha]
        have hnb : n ∉ nb.parents := by
          intro hmem
          have := hInv.closed_parents b nb hb n hmem
          rw [h] at this
          simp at this
        constructor
        · intro hmem; simp [mkNode] at hmem
        · intro hmem; rw [han] at hmem; exact absurd hmem hnb
      · simp [han] at ha
        simp [hbn] at hb
        rw [← hb]
        have hna : n ∉ na.children := by
          intro hmem
          have := hInv.closed_children a na ha n hmem
          rw [h] at this
          simp at this
        constructor
        · intro hmem; rw [hbn] at hmem; exact absurd hmem hna
        · intro hmem; simp [mkNode] at hmem
      · simp [han] at ha
        simp [hbn] at hb
        exact hInv.sym a na b nb ha hb

theorem storeInv_ensureNode (g : SubwayGraph) (n : String) (hInv : StoreInv g) :
    StoreInv (ensureNode g n) := by
  unfold ensureNode
  split
  · exact hInv
  · exact storeInv_add_process g n ProcessStatus.pending none hInv

theorem ensureNode_self (g : SubwayGraph) (n : String) :
    (dget (ensureNode g n).nodes n).isSome = true := by
  unfold ensureNode
  split
  · assumption
  · rename_i h
    rw [dget_add_process]
    rw [Option.not_isSome_iff_eq_none] at h
    rw [h]
    simp

theorem add_process_mono (g : SubwayGraph) (n : String) (st : ProcessStatus)
    (t : Option String) (m : String) (h : (dget g.nodes m).isSome = true) :
    (dget (add_process g n st t).1.nodes m).isSome = true := by
  rw [dget_add_process]
  cases hn : dget g.nodes n
  · by_cases hmn : m = n <;> simp [hmn, h]
  · exact h

theorem ensureNode_mono (g : SubwayGraph) (n m : String)
    (h : (dget g.nodes m).isSome = true) :
    (dget (ensureNode g n).nodes m).isSome = true := by
  unfold ensureNode
  split
  · exact h
  · exact add_process_mono g n ProcessStatus.pending none m h

/-- Replacing a present entry by a node with the same name, children and
parents (a status/metadata update) preserves the store invariants. -/
theorem storeInv_set_same_links (g : SubwayGraph) (k : String)
    (nd nd' : ProcessNode) (hget : dget g.nodes k = some nd)
    (g' : SubwayGraph) (hnodes : g'.nodes = dset g.nodes k nd')
    (horder : g'.execution_order = g.execution_order)
    (hname : nd'.name = nd.name) (hch : nd'.children = nd.children)
    (hpar : nd'.parents = nd.parents)
    (hInv : StoreInv g) : StoreInv g' := by
  have hd : ∀ m, dget g'.nodes m = if m = k then some nd' else dget g.nodes m := by
    intro m; rw [hnodes, dget_dset]
  have hpres : ∀ m, (dget g.nodes m).isSome = true →
      (dget g'.nodes m).isSome = true := by
    intro m hm; rw [hd]; by_cases hmk : m = k <;> simp [hmk, hm]
  constructor
  · intro j n hj
    rw [hd] at hj
    by_cases hjk : j = k
    · simp [hjk] at hj
      rw [← hj, hname, hjk]
      exact hInv.name_eq k nd hget
    · simp [hjk] at hj
      exact hInv.name_eq j n hj
  · intro j n hj
    rw [hd] at hj; rw [horder]
    by_cases hjk : j = k
    · subst hjk; exact hInv.in_order j nd hget
    · simp [hjk] at hj; exact hInv.in_order j n hj
  · intro j n hj c hc
    rw [hd] at hj
    by_cases hjk : j = k
    · simp [hjk] at hj
      rw [← hj, hch] at hc
      exact hpres c (hInv.closed_children k nd hget c hc)
    · simp [hjk] at hj
      exact hpres c (hInv.closed_children j n hj c hc)
  · intro j n hj p hp
    rw [hd] at hj
    by_cases hjk : j = k
    · simp [hjk] at hj
      rw [← hj, hpar] at hp
      exact hpres p (hInv.closed_parents k nd hget p hp)
    · simp [hjk] at hj
      exact hpres p (hInv.closed_parents j n hj p hp)
  · intro a na b nb ha hb
    rw [hd] at ha hb
    by_cases hak : a = k <;> by_cases hbk : b = k
    · simp [hak] at ha
      simp [hbk] at hb
      rw [← ha, ← hb, hch, hpar]
      exact hInv.sym a nd b nd (hak ▸ hget) (hbk ▸ hget)
    · simp [hak] at ha
      simp [hbk] at hb
      rw [← ha, hch]
      exact hInv.sym a nd b nb (hak ▸ hget) hb
    · simp [hak] at ha
      simp [hbk] at hb
      rw [← hb, hpar]
      exact hInv.sym a na b nd ha (hbk ▸ hget)
    · simp [hak] at ha
      simp [hbk] at hb
      exact hInv.sym a na b nb ha hb

theorem storeInv_update_process (g : SubwayGraph) (name : String)
    (st : ProcessStatus) (dur : Option Int) (a : Option String)
    (hInv : StoreInv g) : StoreInv (update_process g name st dur a).1 := by
  cases h : dget g.nodes name with
  | some old =>
    have key : ∀ nd' : ProcessNode, nd'.name = old.name →
        nd'.children = old.children → nd'.parents = old.parents →
        StoreInv { g with nodes := dset g.nodes name nd' } :=
      fun nd' h1 h2 h3 =>
        storeInv_set_same_links g name old nd' h
          { g with nodes := dset g.nodes name nd' } rfl rfl h1 h2 h3 hInv
    rcases dur with _ | d <;> rcases a with _ | an <;>
      simp only [update_process, h] <;>
      exact key _ rfl rfl rfl
  | none =>
    have hAdd := storeInv_add_process g name st none hInv
    rcases a with _ | an
    · simp only [update_process, h]
      exact hAdd
    · have hget2 : dget (add_process g name st none).1.nodes name
          = some (mkNode name st none) := by
        rw [dget_add_process, h]
        simp
      have key : ∀ nd' : ProcessNode, nd'.name = (mkNode name st none).name →
          nd'.children = (mkNode name st none).children →
          nd'.parents = (mkNode name st none).parents →
          StoreInv { (add_process g name st none).1 with
            nodes := dset (add_process g name st none).1.nodes name nd' } :=
        fun nd' h1 h2 h3 =>
          storeInv_set_same_links (add_process g name st none).1 name
            (mkNode name st none) nd' hget2
            { (add_process g name st none).1 with
              nodes := dset (add_process g name st none).1.nodes name nd' }
            rfl rfl h1 h2 h3 hAdd
      simp only [update_process, h, add_process_snd g name st none h]
      exact key _ rfl rfl rfl

theorem linkChildren_order (g : SubwayGraph) (p c : String) :
    (linkChildren g p c).execution_order = g.execution_order := by
  unfold linkChildren
  split
  · split <;> rfl
  · rfl

theorem linkParents_order (g : SubwayGraph) (p c : String) :
    (linkParents g p c).execution_order = g.execution_order := by
  unfold linkParents
  split
  · split <;> rfl
  · rfl

theorem dget_linkChildren (g : SubwayGraph) (p c : String) (pn : ProcessNode)
    (hpn : dget g.nodes p = some pn) (m : String) :
    dget (linkChildren g p c).nodes m =
      if m = p then
        some (if c ∈ pn.children then pn
              else { pn with children := pn.children ++ [c] })
      else dget g.nodes m := by
  simp only [linkChildren, hpn]
  by_cases hmem : c ∈ pn.children
  · simp only [if_pos hmem]
    by_cases hmp : m = p <;> simp [hmp, hpn]
  · simp only [if_neg hmem]
    simp [dget_dset]

theorem dget_linkParents (g : SubwayGraph) (p c : String) (cn : ProcessNode)
    (hcn : dget g.nodes c = some cn) (m : String) :
    dget (linkParents g p c).nodes m =
      if m = c then
        some (if p ∈ cn.parents then cn
              else { cn with parents := cn.parents ++ [p] })
      else dget g.nodes m := by
  simp only [linkParents, hcn]
  by_cases hmem : p ∈ cn.parents
  · simp only [if_pos hmem]
    by_cases hmc : m = c <;> simp [hmc, hcn]
  · simp only [if_neg hmem]
    simp [dget_dset]

/-- The two conditional link appends restore symmetric links: applied to a
store satisfying the invariants in which both endpoints exist, the result
satisfies them again. -/
theorem storeInv_link (G : SubwayGraph) (p c : String) (pn : ProcessNode)
    (hpn : dget G.nodes p = some pn) (hcs : (dget G.nodes c).isSome = true)
    (hInv : StoreInv G) :
    StoreInv (linkParents (linkChildren G p c) p c) := by
  obtain ⟨cn, hcn⟩ := Option.isSome_iff_exists.mp hcs
  set pn2 := (if c ∈ pn.children then pn
              else { pn with children := pn.children ++ [c] }) with hpn2
  have hA : ∀ m, dget (linkChildren G p c).nodes m
      = if m = p then some pn2 else dget G.nodes m := by
    intro m
    rw [dget_linkChildren G p c pn hpn m]
  have hpn2_name : pn2.name = pn.name := by
    rw [hpn2]; split <;> rfl
  have hpn2_parents : pn2.parents = pn.parents := by
    rw [hpn2]; split <;> rfl
  have hpn2_mem : ∀ b, b ∈ pn2.children ↔ (b ∈ pn.children ∨ b = c) := by
    intro b
    rw [hpn2]
    split
    · rename_i hmem
      constructor
      · exact fun hb => Or.inl hb
      · rintro (hb | rfl)
        · exact hb
        · exact hmem
    · simp
  have hpceq : c = p → cn = pn := by
    intro hcp
    rw [hcp, hpn] at hcn
    exact (Option.some_injective _ hcn).symm
  have hcn3 : dget (linkChildren G p c).nodes c
      = some (if c = p then pn2 else cn) := by
    rw [hA c]
    by_cases hcp : c = p <;> simp [hcp, hcn]
  set cn3 := (if c = p then pn2 else cn) with hcn3d
  have hcn3_parents : cn3.parents = cn.parents := by
    rw [hcn3d]
    split
    · rename_i hcp
      rw [hpn2_parents, hpceq hcp]
    · rfl
  have hcn3_name : cn3.name = cn.name := by
    rw [hcn3d]
    split
    · rename_i hcp
      rw [hpn2_name, hpceq hcp]
    · rfl
  have hcn3_children : ∀ b, b ∈ cn3.children ↔
      (b ∈ cn.children ∨ (c = p ∧ b = c)) := by
    intro b
    rw [hcn3d]
    split
    · rename_i hcp
      rw [hpn2_mem b, hpceq hcp]
      constructor
      · rintro (hb | rfl)
        · exact Or.inl hb
        · exact Or.inr ⟨hcp, rfl⟩
      · rintro (hb | ⟨_, rfl⟩)
        · exact Or.inl hb
        · exact Or.inr rfl
    · rename_i hcp
      constructor
      · exact fun hb => Or.inl hb
      · rintro (hb | ⟨hcp2, rfl⟩)
        · exact hb
        · exact absurd hcp2 hcp
  set cn4 := (if p ∈ cn3.parents then cn3
              else { cn3 with parents := cn3.parents ++ [p] }) with hcn4
  have hB : ∀ m, dget (linkParents (linkChildren G p c) p c).nodes m
      = if m = c then some cn4 else dget (linkChildren G p c).nodes m := by
    intro m
    rw [dget_linkParents (linkChildren G p c) p c cn3 hcn3 m]
  have hcn4_name : cn4.name = cn.name := by
    rw [hcn4]
    split
    · exact hcn3_name
    · exact hcn3_name
  have hcn4_children : ∀ b, b ∈ cn4.children ↔
      (b ∈ cn.children ∨ (c = p ∧ b = c)) := by
    intro b
    rw [← hcn3_children b, hcn4]
    split <;> exact Iff.rfl
  have hcn4_mem : ∀ a, a ∈ cn4.parents ↔ (a ∈ cn.parents ∨ a = p) := by
    intro a
    rw [hcn4]
    split
    · rename_i hmem
      rw [hcn3_parents] at hmem ⊢
      constructor
      · exact fun hb => Or.inl hb
      · rintro (hb | rfl)
        · exact hb
        · exact hmem
    · rw [List.mem_append, hcn3_parents]
      simp
  have hD : ∀ m, dget (linkParents (linkChildren G p c) p c).nodes m
      = if m = c then some cn4
        else if m = p then some pn2 else dget G.nodes m := by
    intro m
    rw [hB m, hA m]
  have hPres : ∀ m, (dget (linkParents (linkChildren G p c) p c).nodes m).isSome
      = (dget G.nodes m).isSome := by
    intro m
    rw [hD m]
    by_cases hmc : m = c
    · rw [if_pos hmc, hmc, hcn]
      rfl
    · by_cases hmp : m = p
      · rw [if_neg hmc, if_pos hmp, hmp, hpn]
        rfl
      · rw [if_neg hmc, if_neg hmp]
  have hOrd : (linkParents (linkChildren G p c) p c).execution_order
      = G.execution_order := by
    rw [linkParents_order, linkChildren_order]
  have hpn_name : pn.name = p := hInv.name_eq p pn hpn
  have hcn_name : cn.name = c := hInv.name_eq c cn hcn
  -- characterize children membership after the two appends
  have hch : ∀ a na na4, dget G.nodes a = some na →
      dget (linkParents (linkChildren G p c) p c).nodes a = some na4 →
      ∀ b, (b ∈ na4.children ↔ (b ∈ na.children ∨ (a = p ∧ b = c))) := by
    intro a na na4 hna hna4 b
    rw [hD a] at hna4
    by_cases hac : a = c
    · rw [if_pos hac] at hna4
      have hna4' : na4 = cn4 := (Option.some_injective _ hna4).symm
      subst hna4'
      have hnacn : na = cn := by
        rw [hac, hcn] at hna
        exact (Option.some_injective _ hna).symm
      subst hnacn
      rw [hcn4_children b]
      constructor
      · rintro (hb | ⟨hcp, rfl⟩)
        · exact Or.inl hb
        · exact Or.inr ⟨hac.trans hcp, rfl⟩
      · rintro (hb | ⟨hap, rfl⟩)
        · exact Or.inl hb
        · exact Or.inr ⟨hac.symm.trans hap, rfl⟩
    · rw [if_neg hac] at hna4
      by_cases hap : a = p
      · rw [if_pos hap] at hna4
        have hna4' : na4 = pn2 := (Option.some_injective _ hna4).symm
        subst hna4'
        have hnapn : na = pn := by
          rw [hap, hpn] at hna
          exact (Option.some_injective _ hna).symm
        subst hnapn
        rw [hpn2_mem b]
        constructor
        · rintro (hb | rfl)
          · exact Or.inl hb
          · exact Or.inr ⟨hap, rfl⟩
        · rintro (hb | ⟨_, rfl⟩)
          · exact Or.inl hb
          · exact Or.inr rfl
      · rw [if_neg hap] at hna4
        rw [hna] at hna4
        have hna4' : na4 = na := (Option.some_injective _ hna4).symm
        subst hna4'
        constructor
        · exact fun hb => Or.inl hb
        · rintro (hb | ⟨hap2, rfl⟩)
          · exact hb
          · exact absurd hap2 hap
  -- characterize parent membership after the two appends
  have hpr : ∀ b nb nb4, dget G.nodes b = some nb →
      dget (linkParents (linkChildren G p c) p c).nodes b = some nb4 →
      ∀ a, (a ∈ nb4.parents ↔ (a ∈ nb.parents ∨ (a = p ∧ b = c))) := by
    intro b nb nb4 hnb hnb4 a
    rw [hD b] at hnb4
    by_cases hbc : b = c
    · rw [if_pos hbc] at hnb4
      have hnb4' : nb4 = cn4 := (Option.some_injective _ hnb4).symm
      subst hnb4'
      have hnbcn : nb = cn := by
        rw [hbc, hcn] at hnb
        exact (Option.some_injective _ hnb).symm
      subst hnbcn
      rw [hcn4_mem a]
      constructor
      · rintro (ha | rfl)
        · exact Or.inl ha
        · exact Or.inr ⟨rfl, hbc⟩
      · rintro (ha | ⟨rfl, _⟩)
        · exact Or.inl ha
        · exact Or.inr rfl
    · rw [if_neg hbc] at hnb4
      by_cases hbp : b = p
      · rw [if_pos hbp] at hnb4
        have hnb4' : nb4 = pn2 := (Option.some_injective _ hnb4).symm
        subst hnb4'
        have hnbpn : nb = pn := by
          rw [hbp, hpn] at hnb
          exact (Option.some_injective _ hnb).symm
        subst hnbpn
        rw [hpn2_parents]
        constructor
        · exact fun ha => Or.inl ha
        · rintro (ha | ⟨_, hbc2⟩)
          · exact ha
          · exact absurd hbc2 hbc
      · rw [if_neg hbp] at hnb4
        rw [hnb] at hnb4
        have hnb4' : nb4 = nb := (Option.some_injective _ hnb4).symm
        subst hnb4'
        constructor
        · exact fun ha => Or.inl ha
        · rintro (ha | ⟨_, hbc2⟩)
          · exact ha
          · exact absurd hbc2 hbc
  -- derive the original node behind every final node
  have hback : ∀ m nm4,
      dget (linkParents (linkChildren G p c) p c).nodes m = some nm4 →
      ∃ nm, dget G.nodes m = some nm ∧ nm4.name = nm.name := by
    intro m nm4 hm4
    rw [hD m] at hm4
    by_cases hmc : m = c
    · rw [if_pos hmc] at hm4
      refine ⟨cn, by rw [hmc]; exact hcn, ?_⟩
      rw [← Option.some_injective _ hm4]
      exact hcn4_name
    · rw [if_neg hmc] at hm4
      by_cases hmp : m = p
      · rw [if_pos hmp] at hm4
        refine ⟨pn, by rw [hmp]; exact hpn, ?_⟩
        rw [← Option.some_injective _ hm4]
        exact hpn2_name
      · rw [if_neg hmp] at hm4
        exact ⟨nm4, hm4, rfl⟩
  constructor
  · intro k n hk
    obtain ⟨nm, hnm, hname⟩ := hback k n hk
    rw [hname]
    exact hInv.name_eq k nm hnm
  · intro k n hk
    obtain ⟨nm, hnm, _⟩ := hback k n hk
    rw [hOrd]
    exact hInv.in_order k nm hnm
  · intro k n hk b hb
    obtain ⟨nm, hnm, _⟩ := hback k n hk
    rw [hch k nm n hnm hk b] at hb
    rcases hb with hb | ⟨_, rfl⟩
    · rw [hPres b]
      exact hInv.closed_children k nm hnm b hb
    · rw [hPres b, hcn]
      rfl
  · intro k n hk a ha
    obtain ⟨nm, hnm, _⟩ := hback k n hk
    rw [hpr k nm n hnm hk a] at ha
    rcases ha with ha | ⟨rfl, _⟩
    · rw [hPres a]
      exact hInv.closed_parents k nm hnm a ha
    · rw [hPres a, hpn]
      rfl
  · intro a na4 b nb4 ha4 hb4
    obtain ⟨na, hna, _⟩ := hback a na4 ha4
    obtain ⟨nb, hnb, _⟩ := hback b nb4 hb4
    rw [hch a na na4 hna ha4 b, hpr b nb nb4 hnb hb4 a]
    have hs := hInv.sym a na b nb hna hnb
    constructor
    · rintro (hb | ⟨hap, hbc⟩)
      · exact Or.inl (hs.mp hb)
      · exact Or.inr ⟨hap, hbc⟩
    · rintro (ha | ⟨hap, hbc⟩)
      · exact Or.inl (hs.mpr ha)
      · exact Or.inr ⟨hap, hbc⟩

theorem storeInv_add_dependency (g : SubwayGraph) (p c : String)
    (hInv : StoreInv g) : StoreInv (add_dependency g p c) := by
  have h1 := storeInv_ensureNode g p hInv
  have h2 := storeInv_ensureNode (ensureNode g p) c h1
  have hpP : (dget (ensureNode (ensureNode g p) c).nodes p).isSome = true :=
    ensureNode_mono (ensureNode g p) c p (ensureNode_self g p)
  have hcP : (dget (ensureNode (ensureNode g p) c).nodes c).isSome = true :=
    ensureNode_self (ensureNode g p) c
  obtain ⟨pn, hpn⟩ := Option.isSome_iff_exists.mp hpP
  have hlink := storeInv_link (ensureNode (ensureNode g p) c) p c pn hpn hcP h2
  exact ⟨hlink.name_eq, hlink.in_order, hlink.closed_children,
    hlink.closed_parents, hlink.sym⟩

theorem storeInv_empty : StoreInv emptyStore := by
  constructor
  · intro k n hk
    simp [emptyStore, dget] at hk
  · intro k n hk
    simp [emptyStore, dget] at hk
  · intro k n hk
    simp [emptyStore, dget] at hk
  · intro k n hk
    simp [emptyStore, dget] at hk
  · intro a na b nb ha hb
    simp [emptyStore, dget] at ha

theorem storeInv_applyOp (g : SubwayGraph) (op : GraphOp) (hInv : StoreInv g) :
    StoreInv (applyOp g op) := by
  cases op with
  | upsert n st d a => exact storeInv_update_process g n st d a hInv
  | link p c => exact storeInv_add_dependency g p c hInv

theorem storeInv_foldl (ops : List GraphOp) (g : SubwayGraph)
    (hInv : StoreInv g) : StoreInv (ops.foldl applyOp g) := by
  induction ops generalizing g with
  | nil => exact hInv
  | cons op rest ih => exact ih (applyOp g op) (storeInv_applyOp g op hInv)

theorem storeInv_replay (ops : List GraphOp) : StoreInv (replay ops) :=
  storeInv_foldl ops emptyStore storeInv_empty

/-! ## Claim C8 -/

/-- C8: in every store reachable from the empty store by upsert and link
operations, parent/child links are symmetric: B appears in the children of
A exactly when A appears in the parents of B. -/
theorem C8_links_symmetric (ops : List GraphOp) (a b : String)
    (na nb : ProcessNode)
    (ha : dget (replay ops).nodes a = some na)
    (hb : dget (replay ops).nodes b = some nb) :
    b ∈ na.children ↔ a ∈ nb.parents :=
  (storeInv_replay ops).sym a na b nb ha hb

theorem C8_links_symmetric_witness :
    ("B" ∈ ({ (mkNode "A" ProcessStatus.pending none) with
        children := ["B"] } : ProcessNode).children
      ↔ "A" ∈ ({ (mkNode "B" ProcessStatus.pending none) with
        parents := ["A"] } : ProcessNode).parents) :=
  C8_links_symmetric [GraphOp.link "A" "B"] "A" "B"
    { (mkNode "A" ProcessStatus.pending none) with children := ["B"] }
    { (mkNode "B" ProcessStatus.pending none) with parents := ["A"] }
    (by decide) (by decide)

/-! ## Workflow-completion lemmas -/

theorem upd_other (g : SubwayGraph) (n : String) (st : ProcessStatus)
    (m : String) (hm : m ≠ n) :
    dget ((update_process g n st none none).1).nodes m = dget g.nodes m := by
  cases h : dget g.nodes n with
  | some old =>
    simp only [update_process, h]
    exact dget_dset_ne _ _ _ _ hm
  | none =>
    simp only [update_process, add_process, h]
    exact dget_dset_ne _ _ _ _ hm

theorem upd_self_present (g : SubwayGraph) (n : String) (st : ProcessStatus)
    (old : ProcessNode) (h : dget g.nodes n = some old) :
    dget ((update_process g n st none none).1).nodes n
      = some { old with status := st } := by
  simp only [update_process, h]
  exact dget_dset_self _ _ _

theorem upd_presence (g : SubwayGraph) (n : String) (st : ProcessStatus)
    (m : String) (h : (dget g.nodes m).isSome = true) :
    (dget ((update_process g n st none none).1).nodes m).isSome = true := by
  by_cases hm : m = n
  · subst hm
    cases hn : dget g.nodes m with
    | some old => rw [upd_self_present g m st old hn]; rfl
    | none => rw [hn] at h; cases h
  · rw [upd_other g n st m hm]; exact h

theorem markStep_presence (g : SubwayGraph) (p : ProcessNode) (m : String)
    (h : (dget g.nodes m).isSome = true) :
    (dget (markStep g p).nodes m).isSome = true := by
  unfold markStep
  split
  · exact upd_presence g p.name ProcessStatus.completed m h
  · exact h

theorem markFold_completed (l : List ProcessNode) : ∀ (g : SubwayGraph)
    (m : String) (nm : ProcessNode), dget g.nodes m = some nm →
    nm.status = ProcessStatus.completed →
    ∃ nm', dget (l.foldl markStep g).nodes m = some nm' ∧
      nm'.status = ProcessStatus.completed := by
  induction l with
  | nil => exact fun g m nm h hs => ⟨nm, h, hs⟩
  | cons p rest ih =>
    intro g m nm h hs
    rw [List.foldl_cons]
    by_cases hcond : p.status = ProcessStatus.running ∨
        p.status = ProcessStatus.pending
    · simp only [markStep, if_pos hcond]
      by_cases hpm : p.name = m
      · have h2 : dget g.nodes p.name = some nm := by rw [hpm]; exact h
        have hupd : dget ((update_process g p.name ProcessStatus.completed
            none none).1).nodes m
            = some { nm with status := ProcessStatus.completed } := by
          rw [← hpm]
          exact upd_self_present g p.name ProcessStatus.completed nm h2
        exact ih _ m _ hupd rfl
      · have hm : m ≠ p.name := fun hh => hpm hh.symm
        have hupd : dget ((update_process g p.name ProcessStatus.completed
            none none).1).nodes m = some nm := by
          rw [upd_other g p.name ProcessStatus.completed m hm]; exact h
        exact ih _ m nm hupd hs
    · simp only [markStep, if_neg hcond]
      exact ih g m nm h hs

theorem markFold_untouched (l : List ProcessNode) : ∀ (g : SubwayGraph)
    (m : String),
    (∀ p ∈ l, p.name = m → ¬(p.status = ProcessStatus.running ∨
        p.status = ProcessStatus.pending)) →
    dget (l.foldl markStep g).nodes m = dget g.nodes m := by
  induction l with
  | nil => exact fun g m _ => rfl
  | cons p rest ih =>
    intro g m hp
    rw [List.foldl_cons]
    have hrest : ∀ q ∈ rest, q.name = m → ¬(q.status = ProcessStatus.running ∨
        q.status = ProcessStatus.pending) :=
      fun q hq => hp q (List.mem_cons_of_mem _ hq)
    by_cases hcond : p.status = ProcessStatus.running ∨
        p.status = ProcessStatus.pending
    · simp only [markStep, if_pos hcond]
      have hpm : p.name ≠ m := fun hh => hp p (List.mem_cons_self _ _) hh hcond
      rw [ih _ m hrest,
        upd_other g p.name ProcessStatus.completed m (Ne.symm hpm)]
    · simp only [markStep, if_neg hcond]
      exact ih g m hrest

theorem markFold_hits (l : List ProcessNode) : ∀ (g : SubwayGraph) (m : String)
    (nm : ProcessNode), nm ∈ l → nm.name = m →
    (nm.status = ProcessStatus.running ∨ nm.status = ProcessStatus.pending) →
    (∀ p ∈ l, (dget g.nodes p.name).isSome = true) →
    ∃ nm', dget (l.foldl markStep g).nodes m = some nm' ∧
      nm'.status = ProcessStatus.completed := by
  induction l with
  | nil =>
    intro g m nm h
    exact absurd h (List.not_mem_nil nm)
  | cons p rest ih =>
    intro g m nm hmem hname hst hpres
    rw [List.foldl_cons]
    rcases List.mem_cons.mp hmem with rfl | hmemr
    · simp only [markStep, if_pos hst]
      have hpr : (dget g.nodes nm.name).isSome = true :=
        hpres nm (List.mem_cons_self _ _)
      obtain ⟨old, hold⟩ := Option.isSome_iff_exists.mp hpr
      have hupd : dget ((update_process g nm.name ProcessStatus.completed
          none none).1).nodes m
          = some { old with status := ProcessStatus.completed } := by
        rw [← hname]
        exact upd_self_present g nm.name ProcessStatus.completed old hold
      exact markFold_completed rest _ m _ hupd rfl
    · have hpres' : ∀ q ∈ rest, (dget (markStep g p).nodes q.name).isSome = true :=
        fun q hq => markStep_presence g p q.name
          (hpres q (List.mem_cons_of_mem _ hq))
      exact ih (markStep g p) m nm hmemr hname hst hpres'

theorem snapshot_mem (g : SubwayGraph) (k : String) (n : ProcessNode)
    (hk : k ∈ g.execution_order) (hn : dget g.nodes k = some n) :
    n ∈ get_ordered_processes g := by
  unfold get_ordered_processes
  exact List.mem_filterMap.mpr ⟨k, hk, hn⟩

theorem snapshot_src (g : SubwayGraph) (pnode : ProcessNode)
    (h : pnode ∈ get_ordered_processes g) :
    ∃ k, k ∈ g.execution_order ∧ dget g.nodes k = some pnode := by
  unfold get_ordered_processes at h
  simpa using List.mem_filterMap.mp h

/-! ## Claim C6 -/

/-- C6: on any reachable store, the workflow-completion handler promotes
every Pending or Running node to Completed (its status afterwards is
exactly Completed), so afterwards no node is Pending or Running, while a
node whose status was Completed, Failed or Cached is left entirely
unchanged. -/
theorem C6_workflow_complete_drains (ops : List GraphOp) (m : String)
    (n' : ProcessNode)
    (hm' : dget (mark_workflow_complete (replay ops)).nodes m = some n') :
    (n'.status ≠ ProcessStatus.pending ∧ n'.status ≠ ProcessStatus.running) ∧
    (∀ n, dget (replay ops).nodes m = some n →
      ((n.status = ProcessStatus.pending ∨ n.status = ProcessStatus.running) →
        n'.status = ProcessStatus.completed) ∧
      ((n.status = ProcessStatus.completed ∨ n.status = ProcessStatus.failed ∨
        n.status = ProcessStatus.cached) →
      n' = n)) := by
  have hinv := storeInv_replay ops
  have hpres : ∀ p ∈ get_ordered_processes (replay ops),
      (dget (replay ops).nodes p.name).isSome = true := by
    intro p hp
    obtain ⟨k, hk, hdk⟩ := snapshot_src _ p hp
    have hkeq : p.name = k := hinv.name_eq k p hdk
    rw [hkeq, hdk]
    rfl
  constructor
  · cases hg : dget (replay ops).nodes m with
    | none =>
      have hnone : ∀ p ∈ get_ordered_processes (replay ops), p.name = m →
          ¬(p.status = ProcessStatus.running ∨
            p.status = ProcessStatus.pending) := by
        intro p hp hpm _
        obtain ⟨k, hk, hdk⟩ := snapshot_src _ p hp
        have hkeq : p.name = k := hinv.name_eq k p hdk
        rw [hkeq] at hpm
        rw [hpm] at hdk
        rw [hg] at hdk
        cases hdk
      have hu := markFold_untouched _ (replay ops) m hnone
      rw [mark_workflow_complete, hu, hg] at hm'
      cases hm'
    | some n =>
      by_cases hst : n.status = ProcessStatus.running ∨
          n.status = ProcessStatus.pending
      · have hmem : n ∈ get_ordered_processes (replay ops) :=
          snapshot_mem _ m n (hinv.in_order m n hg) hg
        have hname : n.name = m := hinv.name_eq m n hg
        obtain ⟨n'', h1, h2⟩ :=
          markFold_hits _ (replay ops) m n hmem hname hst hpres
        rw [mark_workflow_complete, h1] at hm'
        have heq : n'' = n' := Option.some_injective _ hm'
        rw [← heq, h2]
        exact ⟨fun hh => ProcessStatus.noConfusion hh,
          fun hh => ProcessStatus.noConfusion hh⟩
      · have huntouched : ∀ p ∈ get_ordered_processes (replay ops),
            p.name = m → ¬(p.status = ProcessStatus.running ∨
              p.status = ProcessStatus.pending) := by
          intro p hp hpm hcon
          obtain ⟨k, hk, hdk⟩ := snapshot_src _ p hp
          have hkeq : p.name = k := hinv.name_eq k p hdk
          rw [hkeq] at hpm
          rw [hpm] at hdk
          rw [hg] at hdk
          have hpn : p = n := (Option.some_injective _ hdk).symm
          rw [hpn] at hcon
          exact hst hcon
        have hu := markFold_untouched _ (replay ops) m huntouched
        rw [mark_workflow_complete, hu, hg] at hm'
        have heq : n = n' := Option.some_injective _ hm'
        rw [← heq]
        exact ⟨fun hh => hst (Or.inr hh), fun hh => hst (Or.inl hh)⟩
  · intro n hn
    constructor
    · intro hpr
      have hst : n.status = ProcessStatus.running ∨
          n.status = ProcessStatus.pending := hpr.symm
      have hmem : n ∈ get_ordered_processes (replay ops) :=
        snapshot_mem _ m n (hinv.in_order m n hn) hn
      have hname : n.name = m := hinv.name_eq m n hn
      obtain ⟨n'', h1, h2⟩ :=
        markFold_hits _ (replay ops) m n hmem hname hst hpres
      rw [mark_workflow_complete, h1] at hm'
      have heq : n'' = n' := Option.some_injective _ hm'
      rw [← heq]
      exact h2
    · intro hkeep
      have huntouched : ∀ p ∈ get_ordered_processes (replay ops), p.name = m →
          ¬(p.status = ProcessStatus.running ∨
            p.status = ProcessStatus.pending) := by
        intro p hp hpm hcon
        obtain ⟨k, hk, hdk⟩ := snapshot_src _ p hp
        have hkeq : p.name = k := hinv.name_eq k p hdk
        rw [hkeq] at hpm
        rw [hpm] at hdk
        rw [hn] at hdk
        have hpn : p = n := (Option.some_injective _ hdk).symm
        rw [hpn] at hcon
        rcases hkeep with hh | hh | hh <;> rw [hh] at hcon <;>
          rcases hcon with h2 | h2 <;> exact ProcessStatus.noConfusion h2
      have hu := markFold_untouched _ (replay ops) m huntouched
      rw [mark_workflow_complete, hu, hn] at hm'
      exact (Option.some_injective _ hm').symm

theorem C6_workflow_complete_drains_witness :
    ((mkNode "A" ProcessStatus.completed none).status ≠ ProcessStatus.pending ∧
     (mkNode "A" ProcessStatus.completed none).status ≠ ProcessStatus.running) ∧
    ((mkNode "A" ProcessStatus.completed none).status
        = ProcessStatus.completed) := by
  have h := C6_workflow_complete_drains
    [GraphOp.upsert "A" ProcessStatus.running none none] "A"
    (mkNode "A" ProcessStatus.completed none) (by decide)
  exact ⟨h.1,
    (h.2 (mkNode "A" ProcessStatus.running none) (by decide)).1 (Or.inr rfl)⟩
